import Mathlib

/-!
Verification of the DAG-ledger core of the SpectrumEncoder repository.

The definitions below are a shallow embedding of the TypeScript sources
`shared/messageEncoding.ts` (DAG utilities, vertex builder), `shared/crypto.ts`
(nonce tracker) and `client/src/lib/dagStorage.ts` (stored-weight refresh).
JavaScript numbers are modelled as `Int` where the source only ever holds
integers (depths, weights, timestamps) and as `Rat` where fractional values
flow (the random walk).  JavaScript `Map` objects are modelled as association
lists with last-write-wins lookup, and `undefined`/`null` fields as `Option`.
Exceptions (out-of-bounds element access) are modelled with `Option` results.
-/


/-- The 64-zero genesis sentinel, `DAGUtils.GENESIS_HASH` in the source. -/
def GENESIS_HASH : String :=
  "0000000000000000000000000000000000000000000000000000000000000000"

/-- The `DagVertex` row type from the schema, restricted to the fields the
ledger engine reads.  `isAnchored` is a varchar that may be absent on
in-memory candidates, `anchorTimestamp` and `createdAt` are nullable
timestamps (modelled as epoch milliseconds). -/
structure DagVertex where
  vertexHash : String
  nodeId : String
  tipReference1 : String
  tipReference2 : String
  depth : Int
  cumulativeWeight : Int
  payloadType : String
  payloadHash : String
  isAnchored : Option String
  anchorTimestamp : Option Int
  createdAt : Option Int
deriving DecidableEq, Repr

/-- The `TipSelection` interface. -/
structure TipSelection where
  tip1Hash : String
  tip2Hash : String
  depth : Int
deriving DecidableEq, Repr

/-- Truthiness test of the source predicate
`!v.isAnchored || v.isAnchored === false-string` used to filter unanchored
vertices: absent, empty or explicitly false values count as unanchored. -/
def isUnanchoredB (v : DagVertex) : Bool :=
  match v.isAnchored with
  | none => true
  | some s => s == "" || s == "false"

namespace DAGUtils

/-- Default retention window of `pruneOldVertices`: 7 days in milliseconds. -/
def DEFAULT_MAX_AGE : Int := 7 * 24 * 60 * 60 * 1000

/-- Prune helper, `DAGUtils.pruneOldVertices`: keep anchored vertices and
vertices whose `createdAt` is strictly newer than `now - maxAge`.  The clock
`now` is passed explicitly (in the source it is `Date.now()`), and `maxAge`
defaults to `DEFAULT_MAX_AGE` at the call sites of the source. -/
def pruneOldVertices (now : Int) (vertices : List DagVertex)
    (maxAge : Int) : List DagVertex :=
  vertices.filter (fun v =>
    v.isAnchored == some "true" ||
      (match v.createdAt with
       | some t => decide (now - maxAge < t)
       | none => false))

end DAGUtils

/-- State of `NonceTracker` from `shared/crypto.ts`: the seen-nonce map and
the configured maximum age. -/
structure NonceTrackerState where
  seenNonces : List (String × Int)
  maxAge : Int
deriving DecidableEq, Repr

namespace NonceTracker

/-- Membership test of the seen-nonce map (`this.seenNonces.has(nonce)`). -/
def seenContains (st : NonceTrackerState) (nonce : String) : Bool :=
  st.seenNonces.any (fun p => p.1 == nonce)

/-- The `hasSeenNonce(nonce, timestamp)` check: reject recorded nonces and
stale or future timestamps; otherwise record the nonce and accept.  Returns
the verdict together with the updated tracker state; `now` is the clock. -/
def hasSeenNonce (st : NonceTrackerState) (now : Int) (nonce : String)
    (timestamp : Int) : Bool × NonceTrackerState :=
  if seenContains st nonce then
    (true, st)
  else if timestamp < now - st.maxAge ∨ timestamp > now + 60000 then
    (true, st)
  else
    (false, { st with seenNonces := st.seenNonces ++ [(nonce, timestamp)] })

end NonceTracker

/-- Truncation toward zero, the rounding used by the JavaScript `%` operator. -/
def jsTrunc (x : Rat) : Int :=
  if 0 ≤ x then Int.floor x else -(Int.floor (-x))

/-- The JavaScript remainder operator `x % m` on numbers: the result has the
sign of the dividend. -/
def jsMod (x m : Rat) : Rat :=
  x - m * (jsTrunc (x / m) : Int)

/-- Element access `l[i]` on a JavaScript array with a possibly out-of-range
index: `none` models the `undefined` that makes the walk crash when it is
dereferenced. -/
def jsGet (l : List α) (i : Int) : Option α :=
  if 0 ≤ i then l[i.toNat]? else none

namespace DAGUtils

/-- One step of the linear congruential generator inside
`DAGUtils.seededRandom`: `state = (state * 9301 + 49297) % 233280`. -/
def lcgNext (state : Rat) : Rat :=
  jsMod (state * 9301 + 49297) 233280

/-- Iterated generator state, starting from the seed. -/
def lcgState (seed : Rat) : Nat → Rat
  | 0 => seed
  | n + 1 => lcgNext (lcgState seed n)

/-- The stream of values returned by the closure `DAGUtils.seededRandom(seed)`:
the k-th call advances the state once and divides by 233280. -/
def seededRandom (seed : Rat) (k : Nat) : Rat :=
  lcgState seed (k + 1) / 233280

/-- Weight parameter `alpha = 0.001` of the random walk. -/
def alpha : Rat := 1 / 1000

/-- The value `Math.exp(alpha * max(cumulativeWeight, 1))` fed to the weighted
selection; `expF` abstracts the transcendental `Math.exp`, which none of the
verified properties depend on. -/
def walkWeight (expF : Rat → Rat) (v : DagVertex) : Rat :=
  expF (alpha * (if 0 < v.cumulativeWeight then (v.cumulativeWeight : Rat) else 1))

/-- Last-wins vertex lookup, modelling the `vertexMap` built in `selectTips`. -/
def vmapOf (vs : List DagVertex) (h : String) : Option DagVertex :=
  vs.reverse.find? (fun v => v.vertexHash == h)

/-- Per-key content of the `approvers` map: scanning the vertices in order,
each vertex is appended under its first tip reference and then under its
second one, so a vertex referencing `h` twice appears twice. -/
def approversOf : List DagVertex → String → List DagVertex
  | [], _ => []
  | v :: t, h =>
      ((if v.tipReference1 == h then [v] else []) ++
        (if v.tipReference2 == h then [v] else [])) ++ approversOf t h

/-- Inner loop of the weighted selection: subtract weights from the random
value until it drops to zero or below; `dflt` is `validApprovers[0]`, kept
when the loop finishes without a break. -/
def pickLoop (expF : Rat → Rat) (l : List DagVertex) (r : Rat)
    (dflt : DagVertex) : DagVertex :=
  match l with
  | [] => dflt
  | a :: rest =>
      if r - walkWeight expF a ≤ 0 then a
      else pickLoop expF rest (r - walkWeight expF a) dflt

/-- The walk loop of `DAGUtils.performRandomWalk`, with the remaining step
budget as fuel (`maxSteps = 100` in the source).  When the budget is spent the
current position is returned as the fallback tip.  The RNG is a stream
consumed at position `pos`. -/
def walkLoop (expF : Rat → Rat) (vmap : String → Option DagVertex)
    (app : String → List DagVertex) (fuel : Nat) (rng : Nat → Rat)
    (pos : Nat) (current : DagVertex) : Option DagVertex × Nat :=
  match fuel with
  | 0 => (some current, pos)
  | n + 1 =>
      let valid := (app current.vertexHash).filter (fun a =>
        (a.tipReference1 == GENESIS_HASH || (vmap a.tipReference1).isSome) &&
          (a.tipReference2 == GENESIS_HASH || (vmap a.tipReference2).isSome))
      match valid with
      | [] => (some current, pos)
      | v0 :: _ =>
          let total := (valid.map (walkWeight expF)).sum
          if total == 0 then
            match jsGet valid (Int.floor (rng pos * (valid.length : Rat))) with
            | none => (none, pos + 1)
            | some nxt => walkLoop expF vmap app n rng (pos + 1) nxt
          else
            walkLoop expF vmap app n rng (pos + 1)
              (pickLoop expF valid (rng pos * total) v0)

/-- A single weighted random walk (`DAGUtils.performRandomWalk`): pick an
entry point among the most recent `min(10, n)` vertices, then walk towards a
tip.  A `none` result models the TypeError raised when the entry index falls
outside the array. -/
def performRandomWalk (expF : Rat → Rat) (vertices : List DagVertex)
    (vmap : String → Option DagVertex) (app : String → List DagVertex)
    (rng : Nat → Rat) (pos : Nat) : Option DagVertex × Nat :=
  match jsGet vertices ((vertices.length : Int) - 1 -
      Int.floor (rng pos * (min 10 (vertices.length : Int) : Int))) with
  | none => (none, pos + 1)
  | some c => walkLoop expF vmap app 100 rng (pos + 1) c

/-- The JavaScript float literal `1.618` multiplying the seed of the second
walk, modelled as the rational it denotes in the source text. -/
def goldenFactor : Rat := 1618 / 1000

/-- The two walks of `selectTips`.  With a seed, the first walk uses the
seeded generator; the second uses the seeded generator on `seed * 1.618` when
the seed is truthy and falls back to the external `Math.random` stream `ext`
when the seed is `0` (falsy).  Without a seed both walks consume `ext`
sequentially. -/
def walkPair (expF : Rat → Rat) (U : List DagVertex) (seed : Option Rat)
    (ext : Nat → Rat) : Option DagVertex × Option DagVertex :=
  match seed with
  | some s =>
      ((performRandomWalk expF U (vmapOf U) (approversOf U) (seededRandom s) 0).1,
        if s = 0 then
          (performRandomWalk expF U (vmapOf U) (approversOf U) ext 0).1
        else
          (performRandomWalk expF U (vmapOf U) (approversOf U)
            (seededRandom (s * goldenFactor)) 0).1)
  | none =>
      ((performRandomWalk expF U (vmapOf U) (approversOf U) ext 0).1,
        (performRandomWalk expF U (vmapOf U) (approversOf U) ext
          (performRandomWalk expF U (vmapOf U) (approversOf U) ext 0).2).1)

/-- Combine the two walk results into a `TipSelection` with
`depth = max(tip1.depth, tip2.depth) + 1`; a crashed walk aborts. -/
def combineTips : Option DagVertex × Option DagVertex → Option TipSelection
  | (some a, some b) =>
      some { tip1Hash := a.vertexHash, tip2Hash := b.vertexHash,
             depth := max a.depth b.depth + 1 }
  | _ => none

/-- Tip selection (`DAGUtils.selectTips`, full variant): genesis tips on an
empty set, the latest vertex when everything is anchored, the single
unanchored vertex when there is exactly one, and two weighted random walks
otherwise. -/
def selectTips (expF : Rat → Rat) (recentVertices : List DagVertex)
    (seed : Option Rat) (ext : Nat → Rat) : Option TipSelection :=
  if recentVertices.isEmpty then
    some { tip1Hash := GENESIS_HASH, tip2Hash := GENESIS_HASH, depth := 0 }
  else
    match recentVertices.filter isUnanchoredB with
    | [] =>
        match recentVertices.getLast? with
        | some latest =>
            some { tip1Hash := latest.vertexHash, tip2Hash := latest.vertexHash,
                   depth := latest.depth + 1 }
        | none => none
    | [u] =>
        some { tip1Hash := u.vertexHash, tip2Hash := u.vertexHash,
               depth := u.depth + 1 }
    | u1 :: u2 :: us =>
        combineTips (walkPair expF (u1 :: u2 :: us) seed ext)

end DAGUtils

namespace DAGUtils

/-- JavaScript `value || 1` applied to a weight lookup: a missing entry or a
zero weight falls back to 1, every other number passes through. -/
def jsOrOne (o : Option Int) : Int :=
  match o with
  | none => 1
  | some w => if w == 0 then 1 else w

/-- Lookup in the weights map modelled as an association list with the most
recent write at the head. -/
def wGet (m : List (String × Int)) (k : String) : Option Int :=
  (m.find? (fun p => p.1 == k)).map (fun p => p.2)

/-- Comparator of the sort `(a, b) => b.depth - a.depth` of
`recalculateAllWeights`: `a` may precede `b` exactly when its depth is not
smaller. -/
def depthGE (a b : DagVertex) : Prop := b.depth ≤ a.depth

instance : DecidableRel depthGE := fun a b => Int.decLe b.depth a.depth

instance : IsTotal DagVertex depthGE :=
  IsTotal.mk (fun a b => le_total b.depth a.depth)

instance : IsTrans DagVertex depthGE :=
  IsTrans.mk (fun _ _ _ hab hbc => le_trans hbc hab)

/-- One iteration of the weight loop of `recalculateAllWeights`: record 1 for
a vertex without approver occurrences, otherwise 1 plus the (defaulted)
recorded weights of its approver occurrences. -/
def recalcStep (vertices : List DagVertex) (weights : List (String × Int))
    (vertex : DagVertex) : List (String × Int) :=
  if (approversOf vertices vertex.vertexHash).isEmpty then
    (vertex.vertexHash, 1) :: weights
  else
    (vertex.vertexHash,
      1 + ((approversOf vertices vertex.vertexHash).map
        (fun a => jsOrOne (wGet weights a.vertexHash))).sum) :: weights

/-- The weight recomputation `DAGUtils.recalculateAllWeights`: sort by
descending depth (a stable structural sort models the stable
`Array.prototype.sort` of the source), then run the weight loop over the
sorted vertices. -/
def recalculateAllWeights (vertices : List DagVertex) : List (String × Int) :=
  (List.insertionSort depthGE vertices).foldl (recalcStep vertices) []

/-- Visitation state of the cycle-detection DFS: the global visited set and
the recursion stack. -/
structure DfsState where
  visited : List String
  stack : List String
deriving Repr

/-- The recursive `dfs` of `DAGUtils.hasCycles`, following non-genesis parent
references through the last-write-wins vertex map.  The fuel bounds the
recursion depth; every frame on an active chain pushes a distinct hash onto
the stack, so a fuel exceeding the number of distinct hashes (at most
`3 * vertices.length + 2` counting every hash and reference) is never
exhausted. -/
def dfsVisit (vmap : String → Option DagVertex) :
    Nat → String → DfsState → Bool × DfsState
  | 0, _, st => (false, st)
  | fuel + 1, h, st =>
      if st.stack.contains h then (true, st)
      else if st.visited.contains h then (false, st)
      else
        let st1 : DfsState := { visited := h :: st.visited, stack := h :: st.stack }
        match vmap h with
        | none => (false, { visited := st1.visited, stack := st.stack })
        | some v =>
            let r1 :=
              if v.tipReference1 != GENESIS_HASH then
                dfsVisit vmap fuel v.tipReference1 st1
              else (false, st1)
            if r1.1 then (true, r1.2)
            else
              let r2 :=
                if v.tipReference2 != GENESIS_HASH then
                  dfsVisit vmap fuel v.tipReference2 r1.2
                else (false, r1.2)
              if r2.1 then (true, r2.2)
              else (false, { visited := r2.2.visited, stack := st.stack })

/-- Cycle detection `DAGUtils.hasCycles`: run the DFS from every not yet
visited vertex, short-circuiting on the first detected cycle. -/
def hasCycles (vertices : List DagVertex) : Bool :=
  (vertices.foldl
    (fun acc v =>
      match acc with
      | (true, st) => (true, st)
      | (false, st) =>
          if st.visited.contains v.vertexHash then (false, st)
          else dfsVisit (vmapOf vertices) (3 * vertices.length + 2) v.vertexHash st)
    ((false, { visited := [], stack := [] }) : Bool × DfsState)).1

/-- Check 1 of `isValidDAG`: every non-genesis tip reference resolves to a
vertex hash of the presented set. -/
def referencesExist (vertices : List DagVertex) : Bool :=
  vertices.all (fun v =>
    (v.tipReference1 == GENESIS_HASH ||
      (vertices.map (fun w => w.vertexHash)).contains v.tipReference1) &&
    (v.tipReference2 == GENESIS_HASH ||
      (vertices.map (fun w => w.vertexHash)).contains v.tipReference2))

/-- Check 2 of `isValidDAG`: group the vertex hashes by payload hash; a group
with more than one member must expose a single distinct `tip1,tip2` string
(computed through a find-first lookup, exactly as the source). -/
def noConflicts (vertices : List DagVertex) : Bool :=
  ((vertices.map (fun v => v.payloadHash)).eraseDups).all (fun p =>
    let group := (vertices.filter (fun v => v.payloadHash == p)).map
      (fun v => v.vertexHash)
    if 1 < group.length then
      ((group.filterMap (fun h =>
          (vertices.find? (fun v => v.vertexHash == h)).map
            (fun v => v.tipReference1 ++ "," ++ v.tipReference2))).eraseDups).length ≤ 1
    else true)

/-- The `depths.get(h) || 0` lookup of check 3; the last `set` for a hash
wins, and an absent hash defaults to depth 0 (a present depth 0 is falsy in
the source and also yields 0, so the identity translation is exact). -/
def depthsGet (vertices : List DagVertex) (h : String) : Int :=
  match vmapOf vertices h with
  | some v => v.depth
  | none => 0

/-- Check 3 of `isValidDAG`: both non-genesis parents must have a strictly
smaller recorded depth. -/
def depthsOrdered (vertices : List DagVertex) : Bool :=
  vertices.all (fun v =>
    (v.tipReference1 == GENESIS_HASH ||
      decide (depthsGet vertices v.tipReference1 < v.depth)) &&
    (v.tipReference2 == GENESIS_HASH ||
      decide (depthsGet vertices v.tipReference2 < v.depth)))

/-- The `anchoredStatus.get(h)` lookup of check 4. -/
def anchoredGet (vertices : List DagVertex) (h : String) : Option Bool :=
  (vmapOf vertices h).map (fun v => v.isAnchored == some "true")

/-- Check 4 of `isValidDAG`: an anchored vertex must not have an anchor
timestamp before its creation time, and its non-genesis parents must not be
recorded as unanchored. -/
def anchoringOk (vertices : List DagVertex) : Bool :=
  vertices.all (fun v =>
    if v.isAnchored == some "true" then
      (match v.anchorTimestamp, v.createdAt with
       | some ts1, some ts2 => decide (ts2 ≤ ts1)
       | _, _ => true) &&
      (v.tipReference1 == GENESIS_HASH ||
        !(anchoredGet vertices v.tipReference1 == some false)) &&
      (v.tipReference2 == GENESIS_HASH ||
        !(anchoredGet vertices v.tipReference2 == some false))
    else true)

/-- Validation `DAGUtils.isValidDAG` (full variant): cycles, reference
existence, payload conflicts, depth ordering and anchoring rules, in the
order of the source with its early returns. -/
def isValidDAG (vertices : List DagVertex) : Bool :=
  if vertices.isEmpty then true
  else
    !hasCycles vertices && referencesExist vertices && noConflicts vertices &&
      depthsOrdered vertices && anchoringOk vertices

end DAGUtils

namespace DAGUtilsLegacy

/-- The simplified variant of `calculateCumulativeWeight` (second copy of
`DAGUtils` in the source), the overload invoked by
`DAGStorage.updateCumulativeWeights`: one plus the current stored weights of
the vertices referencing this one, or 1 when there are none. -/
def calculateCumulativeWeight (vertex : DagVertex)
    (allVertices : List DagVertex) : Int :=
  let referenced := allVertices.filter (fun v =>
    v.tipReference1 == vertex.vertexHash || v.tipReference2 == vertex.vertexHash)
  if referenced.isEmpty then 1
  else 1 + (referenced.map (fun v => v.cumulativeWeight)).sum

end DAGUtilsLegacy

namespace DAGStorage

/-- One iteration of the stored-weight refresh: recompute the weight of the
vertex at store position `i` against the current (partially updated) store
and write it back when it changed. -/
def updateStep (cur : List DagVertex) (i : Nat) : List DagVertex :=
  match cur[i]? with
  | none => cur
  | some v =>
      if DAGUtilsLegacy.calculateCumulativeWeight v cur == v.cumulativeWeight then
        cur
      else
        cur.set i
          { v with cumulativeWeight := DAGUtilsLegacy.calculateCumulativeWeight v cur }

/-- The stored-weight refresh `DAGStorage.updateCumulativeWeights`: iterate
over the vertex store in order, refreshing each position in turn. -/
def updateCumulativeWeights (allVertices : List DagVertex) : List DagVertex :=
  (List.range allVertices.length).foldl updateStep allVertices

end DAGStorage

mutual

/-- JSON values carried in vertex payloads, with arrays and objects as
mutually inductive list types (string contents are assumed to need no
escaping, which holds for every value in this development). -/
inductive Json where
  | null : Json
  | bool : Bool → Json
  | num : Int → Json
  | str : String → Json
  | arr : JsonItems → Json
  | obj : JsonFields → Json

/-- Elements of a JSON array. -/
inductive JsonItems where
  | nil : JsonItems
  | cons : Json → JsonItems → JsonItems

/-- Property list of a JSON object. -/
inductive JsonFields where
  | nil : JsonFields
  | cons : String → Json → JsonFields → JsonFields

end

mutual

/-- Nesting depth of a JSON value, used as recursion fuel. -/
def Json.fuelOf : Json → Nat
  | Json.arr l => l.fuelOf + 1
  | Json.obj f => f.fuelOf + 1
  | _ => 1

/-- Nesting depth of array elements. -/
def JsonItems.fuelOf : JsonItems → Nat
  | JsonItems.nil => 0
  | JsonItems.cons v t => max v.fuelOf t.fuelOf

/-- Nesting depth of object properties. -/
def JsonFields.fuelOf : JsonFields → Nat
  | JsonFields.nil => 0
  | JsonFields.cons _ v t => max v.fuelOf t.fuelOf

end

/-- The elements of a JSON array as a plain list. -/
def JsonItems.toList : JsonItems → List Json
  | JsonItems.nil => []
  | JsonItems.cons v t => v :: JsonItems.toList t

/-- First-match lookup of an object property (JavaScript object keys are
unique, so first match is the only match). -/
def jlookup : JsonFields → String → Option Json
  | JsonFields.nil, _ => none
  | JsonFields.cons k v t, key => if k == key then some v else jlookup t key

/-- Serialization of a JSON string literal (contents assumed escape-free). -/
def jquote (s : String) : String :=
  "\"" ++ s ++ "\""

/-- The serialization performed by `JSON.stringify(value, keys)` with a
replacer array: objects at every nesting level emit only the properties named
in `keys`, in the order of `keys`; arrays and scalars are serialized as
usual.  The fuel is structurally decreasing; callers pass `Json.fuelOf`,
which always suffices because every recursive call descends one nesting
level. -/
def stringifyFiltered : Nat → List String → Json → String
  | 0, _, _ => ""
  | fuel + 1, keys, j =>
      match j with
      | Json.null => "null"
      | Json.bool b => if b then "true" else "false"
      | Json.num n => toString n
      | Json.str s => jquote s
      | Json.arr l =>
          "[" ++ String.intercalate ","
            ((JsonItems.toList l).map (stringifyFiltered fuel keys)) ++ "]"
      | Json.obj fields =>
          "\x7b" ++
            String.intercalate ","
              (keys.filterMap (fun k =>
                (jlookup fields k).map (fun v =>
                  jquote k ++ ":" ++ stringifyFiltered fuel keys v))) ++
            "\x7d"


/-- The `VertexPayload` interface: a tagged payload with opaque `data`. -/
structure VertexPayload where
  type : String
  data : Json
  timestamp : Int

/-- A payload as the JavaScript object literal of the source, with its
insertion-order keys `type`, `data`, `timestamp`. -/
def VertexPayload.toJson (p : VertexPayload) : Json :=
  Json.obj (JsonFields.cons "type" (Json.str p.type)
    (JsonFields.cons "data" p.data
      (JsonFields.cons "timestamp" (Json.num p.timestamp) JsonFields.nil)))

/-- The replacer `Object.keys(payload).sort()` of `calculatePayloadHash`: the
payload object always has exactly the keys `type`, `data`, `timestamp`, whose
sorted order is fixed. -/
def payloadKeys : List String := ["data", "timestamp", "type"]

namespace DAGUtils

/-- The canonical serialization
`JSON.stringify(payload, Object.keys(payload).sort())` hashed by
`calculatePayloadHash`. -/
def canonicalPayload (p : VertexPayload) : String :=
  stringifyFiltered p.toJson.fuelOf payloadKeys p.toJson

/-- Payload digest `DAGUtils.calculatePayloadHash`; `sha` abstracts the
SHA-256 hex digest, on which the verified properties do not depend. -/
def calculatePayloadHash (sha : String → String) (p : VertexPayload) : String :=
  sha (canonicalPayload p)

/-- The preimage string of `DAGUtils.calculateVertexHash`:
`JSON.stringify` of the object with keys `tip1`, `tip2`, `payload`, `node`,
`ts` in insertion order. -/
def vertexHashPreimage (tip1 tip2 payloadHash nodeId : String) (ts : Int) : String :=
  "\x7b\"tip1\":" ++ jquote tip1 ++ ",\"tip2\":" ++ jquote tip2 ++
    ",\"payload\":" ++ jquote payloadHash ++ ",\"node\":" ++ jquote nodeId ++
    ",\"ts\":" ++ toString ts ++ "\x7d"

/-- Vertex digest `DAGUtils.calculateVertexHash`. -/
def calculateVertexHash (sha : String → String) (tip1 tip2 payloadHash nodeId : String)
    (ts : Int) : String :=
  sha (vertexHashPreimage tip1 tip2 payloadHash nodeId ts)

end DAGUtils

namespace VertexBuilder

/-- The two digests computed by `VertexBuilder.build` for the vertex record:
the payload hash of the canonicalized payload and the vertex hash over
`(tip1, tip2, payloadHash, nodeId, payload.timestamp)`.  The remaining fields
of the built record (engagement proof, signature) involve fresh nonces and
key material and are independent of these digests. -/
def buildHashes (sha : String → String) (nodeId : String) (payload : VertexPayload)
    (tips : TipSelection) : String × String :=
  let payloadHash := DAGUtils.calculatePayloadHash sha payload
  (payloadHash,
    DAGUtils.calculateVertexHash sha tips.tip1Hash tips.tip2Hash payloadHash
      nodeId payload.timestamp)

end VertexBuilder

/-- Example: unanchored tip vertex with hash a. -/
def tipA : DagVertex :=
  { vertexHash := "a", nodeId := "n", tipReference1 := GENESIS_HASH,
    tipReference2 := GENESIS_HASH, depth := 1, cumulativeWeight := 1,
    payloadType := "message", payloadHash := "pa", isAnchored := none,
    anchorTimestamp := none, createdAt := none }

/-- Example: unanchored tip vertex with hash b. -/
def tipB : DagVertex :=
  { vertexHash := "b", nodeId := "n", tipReference1 := GENESIS_HASH,
    tipReference2 := GENESIS_HASH, depth := 1, cumulativeWeight := 1,
    payloadType := "message", payloadHash := "pb", isAnchored := none,
    anchorTimestamp := none, createdAt := none }

/-- Example: a parent vertex referenced twice by one child. -/
def parentP : DagVertex :=
  { vertexHash := "p", nodeId := "n", tipReference1 := GENESIS_HASH,
    tipReference2 := GENESIS_HASH, depth := 0, cumulativeWeight := 1,
    payloadType := "message", payloadHash := "pp", isAnchored := none,
    anchorTimestamp := none, createdAt := none }

/-- Example: child referencing parentP by both tips. -/
def childC : DagVertex :=
  { vertexHash := "c", nodeId := "n", tipReference1 := "p",
    tipReference2 := "p", depth := 1, cumulativeWeight := 1,
    payloadType := "message", payloadHash := "pc", isAnchored := none,
    anchorTimestamp := none, createdAt := none }

/-- Example: vertex whose first tip reference is its own hash. -/
def selfRefVertex : DagVertex :=
  { vertexHash := "s", nodeId := "n", tipReference1 := "s",
    tipReference2 := GENESIS_HASH, depth := 0, cumulativeWeight := 1,
    payloadType := "message", payloadHash := "ps", isAnchored := none,
    anchorTimestamp := none, createdAt := none }

/-- Example: self-referencing vertex whose hash is shared with dupPlain. -/
def dupSelfRef : DagVertex :=
  { vertexHash := "h", nodeId := "n", tipReference1 := "h",
    tipReference2 := GENESIS_HASH, depth := 5, cumulativeWeight := 1,
    payloadType := "message", payloadHash := "p1", isAnchored := none,
    anchorTimestamp := none, createdAt := none }

/-- Example: duplicate-hash partner of dupSelfRef with genesis parents. -/
def dupPlain : DagVertex :=
  { vertexHash := "h", nodeId := "n", tipReference1 := GENESIS_HASH,
    tipReference2 := GENESIS_HASH, depth := 1, cumulativeWeight := 1,
    payloadType := "message", payloadHash := "p2", isAnchored := none,
    anchorTimestamp := none, createdAt := none }

/-- C9 scratch checks. -/
example :
    DAGUtils.pruneOldVertices 1000
      [{ vertexHash := "a", nodeId := "n", tipReference1 := GENESIS_HASH,
         tipReference2 := GENESIS_HASH, depth := 0, cumulativeWeight := 1,
         payloadType := "message", payloadHash := "p",
         isAnchored := some "true", anchorTimestamp := none,
         createdAt := some 0 }] 100 =
      [{ vertexHash := "a", nodeId := "n", tipReference1 := GENESIS_HASH,
         tipReference2 := GENESIS_HASH, depth := 0, cumulativeWeight := 1,
         payloadType := "message", payloadHash := "p",
         isAnchored := some "true", anchorTimestamp := none,
         createdAt := some 0 }] := by decide

/-- Payload with empty `data`, type `message`, timestamp 5. -/
def payloadEmptyData : VertexPayload :=
  { type := "message", data := Json.obj JsonFields.nil, timestamp := 5 }

/-- Payload identical to `payloadEmptyData` except that `data` carries a
property `foo`. -/
def payloadFooData : VertexPayload :=
  { type := "message",
    data := Json.obj (JsonFields.cons "foo" (Json.num 1) JsonFields.nil),
    timestamp := 5 }

/-- Example: anchored vertex, the only element of an all-anchored ledger. -/
def anchoredOnly : DagVertex :=
  { vertexHash := "av", nodeId := "n", tipReference1 := GENESIS_HASH,
    tipReference2 := GENESIS_HASH, depth := 3, cumulativeWeight := 1,
    payloadType := "message", payloadHash := "pav", isAnchored := some "true",
    anchorTimestamp := none, createdAt := none }

/-- Example: chain root with hash a (stored weight 1). -/
def chainA : DagVertex :=
  { vertexHash := "a", nodeId := "n", tipReference1 := GENESIS_HASH,
    tipReference2 := GENESIS_HASH, depth := 0, cumulativeWeight := 1,
    payloadType := "message", payloadHash := "p1", isAnchored := none,
    anchorTimestamp := none, createdAt := none }

/-- Example: chain middle vertex approving chainA. -/
def chainB : DagVertex :=
  { vertexHash := "b", nodeId := "n", tipReference1 := "a",
    tipReference2 := GENESIS_HASH, depth := 1, cumulativeWeight := 1,
    payloadType := "message", payloadHash := "p2", isAnchored := none,
    anchorTimestamp := none, createdAt := none }

/-- Example: chain tip approving chainB. -/
def chainC : DagVertex :=
  { vertexHash := "c", nodeId := "n", tipReference1 := "b",
    tipReference2 := GENESIS_HASH, depth := 2, cumulativeWeight := 1,
    payloadType := "message", payloadHash := "p3", isAnchored := none,
    anchorTimestamp := none, createdAt := none }

/-- Parent-reference edge between vertices of a list: `b` is a parent of `a`
when one of the tip references of `a` equals the hash of `b` and that hash is
not the genesis sentinel (a genesis reference denotes no parent). -/
def refEdge (vs : List DagVertex) (a b : DagVertex) : Prop :=
  b ∈ vs ∧ (a.tipReference1 = b.vertexHash ∨ a.tipReference2 = b.vertexHash) ∧
    b.vertexHash ≠ GENESIS_HASH

/-- Example: unanchored parent with hash p. -/
def unanchParent : DagVertex :=
  { vertexHash := "p", nodeId := "n", tipReference1 := GENESIS_HASH,
    tipReference2 := GENESIS_HASH, depth := 0, cumulativeWeight := 1,
    payloadType := "message", payloadHash := "pp1", isAnchored := some "false",
    anchorTimestamp := none, createdAt := none }

/-- Example: anchored child of the unanchored parent. -/
def anchChild : DagVertex :=
  { vertexHash := "c", nodeId := "n", tipReference1 := "p",
    tipReference2 := GENESIS_HASH, depth := 1, cumulativeWeight := 1,
    payloadType := "message", payloadHash := "pc1", isAnchored := some "true",
    anchorTimestamp := none, createdAt := none }

/-- Example: anchored duplicate-hash partner of the unanchored parent. -/
def anchParentDup : DagVertex :=
  { vertexHash := "p", nodeId := "n", tipReference1 := GENESIS_HASH,
    tipReference2 := GENESIS_HASH, depth := 0, cumulativeWeight := 1,
    payloadType := "message", payloadHash := "pp2", isAnchored := some "true",
    anchorTimestamp := none, createdAt := none }

/-- C8: `NonceTracker.hasSeenNonce(n, t)` returns true exactly when the nonce
is recorded or the timestamp is staler than `now - maxAge` or more than 60
seconds in the future; a fresh in-window submission is accepted and recorded,
so the identical resubmission is rejected; and a rejection of a fresh nonce
for timestamp reasons leaves the tracker unchanged (the nonce is not
recorded). -/
theorem hasSeenNonce_spec (st : NonceTrackerState) (now timestamp : Int)
    (n : String) :
    ((NonceTracker.hasSeenNonce st now n timestamp).1 = true ↔
      (NonceTracker.seenContains st n = true ∨ timestamp < now - st.maxAge ∨
        now + 60000 < timestamp)) ∧
    (NonceTracker.seenContains st n = false → now - st.maxAge ≤ timestamp →
      timestamp ≤ now + 60000 →
      (NonceTracker.hasSeenNonce st now n timestamp).1 = false ∧
        (NonceTracker.hasSeenNonce
          (NonceTracker.hasSeenNonce st now n timestamp).2 now n timestamp).1 = true) ∧
    ((timestamp < now - st.maxAge ∨ now + 60000 < timestamp) →
      (NonceTracker.hasSeenNonce st now n timestamp).2 = st) := by
  unfold NonceTracker.hasSeenNonce
  refine ⟨?_, ?_, ?_⟩
  · split_ifs with h1 h2
    · simp [h1]
    · simp only [eq_self_iff_true, true_iff]
      right
      omega
    · simp only [Bool.not_eq_true] at h1
      simp [h1]
      omega
  · intro h1 h2 h3
    rw [if_neg (by simp [h1]), if_neg (by omega)]
    refine ⟨rfl, ?_⟩
    rw [if_pos ?_]
    simp [NonceTracker.seenContains]
  · intro h2
    split_ifs with h1
    · rfl
    · rfl

/-- C8 witness: a concrete replay sequence with `maxAge = 300000`, clock 1000
and timestamp 900: accepted on the first call and rejected on the second. -/
theorem hasSeenNonce_spec_witness :
    (NonceTracker.hasSeenNonce { seenNonces := [], maxAge := 300000 } 1000 "n1" 900).1
        = false ∧
      (NonceTracker.hasSeenNonce
        (NonceTracker.hasSeenNonce { seenNonces := [], maxAge := 300000 } 1000 "n1" 900).2
        1000 "n1" 900).1 = true :=
  (hasSeenNonce_spec { seenNonces := [], maxAge := 300000 } 1000 900 "n1").2.1
    (by decide) (by decide) (by decide)

/-- C9: with the clock fixed, `pruneOldVertices` keeps exactly the vertices
that are anchored or have a `createdAt` strictly newer than `now - maxAge`;
every anchored vertex survives regardless of age; and pruning twice with the
same cutoff equals pruning once. -/
theorem pruneOldVertices_spec (now maxAge : Int) (vertices : List DagVertex) :
    (∀ v, v ∈ DAGUtils.pruneOldVertices now vertices maxAge ↔
      (v ∈ vertices ∧ (v.isAnchored = some "true" ∨
        ∃ t, v.createdAt = some t ∧ now - maxAge < t))) ∧
    (∀ v ∈ vertices, v.isAnchored = some "true" →
      v ∈ DAGUtils.pruneOldVertices now vertices maxAge) ∧
    DAGUtils.pruneOldVertices now (DAGUtils.pruneOldVertices now vertices maxAge)
        maxAge =
      DAGUtils.pruneOldVertices now vertices maxAge := by
  have hmem : ∀ v, v ∈ DAGUtils.pruneOldVertices now vertices maxAge ↔
      (v ∈ vertices ∧ (v.isAnchored = some "true" ∨
        ∃ t, v.createdAt = some t ∧ now - maxAge < t)) := by
    intro v
    unfold DAGUtils.pruneOldVertices
    rw [List.mem_filter]
    constructor
    · rintro ⟨hv, hcond⟩
      refine ⟨hv, ?_⟩
      rcases hor : v.isAnchored == some "true" with _ | _
      · rw [hor] at hcond
        simp only [Bool.false_or] at hcond
        cases hct : v.createdAt with
        | none => rw [hct] at hcond; simp at hcond
        | some t =>
            rw [hct] at hcond
            simp only [decide_eq_true_eq] at hcond
            exact Or.inr ⟨t, rfl, hcond⟩
      · exact Or.inl (by simpa using hor)
    · rintro ⟨hv, hcond⟩
      refine ⟨hv, ?_⟩
      rcases hcond with h | ⟨t, hct, hlt⟩
      · simp [h]
      · rw [hct]
        simp [hlt]
  refine ⟨hmem, ?_, ?_⟩
  · intro v hv ha
    exact (hmem v).2 ⟨hv, Or.inl ha⟩
  · unfold DAGUtils.pruneOldVertices
    rw [List.filter_filter]
    simp [Bool.and_self]

/-- C9 witness: an aged anchored vertex survives a pruning pass whose window
excludes its creation time. -/
theorem pruneOldVertices_spec_witness :
    ({ vertexHash := "w", nodeId := "n", tipReference1 := GENESIS_HASH,
       tipReference2 := GENESIS_HASH, depth := 0, cumulativeWeight := 1,
       payloadType := "message", payloadHash := "pw",
       isAnchored := some "true", anchorTimestamp := none,
       createdAt := some 0 } : DagVertex) ∈
      DAGUtils.pruneOldVertices 1000
        [{ vertexHash := "w", nodeId := "n", tipReference1 := GENESIS_HASH,
           tipReference2 := GENESIS_HASH, depth := 0, cumulativeWeight := 1,
           payloadType := "message", payloadHash := "pw",
           isAnchored := some "true", anchorTimestamp := none,
           createdAt := some 0 }] 100 :=
  (pruneOldVertices_spec 1000 100 _).2.1 _ (by decide) (by decide)

/-- C2: the canonicalization `JSON.stringify(payload, keys-sorted)` keeps only
the properties `data`, `timestamp`, `type` at every nesting level, so the two
payloads above - equal type and timestamp, materially different `data` -
serialize identically, `calculatePayloadHash` digests them identically for
every hash function, and `VertexBuilder.build` derives the same payload hash
and vertex hash from them for every node id and tip selection. -/
theorem calculatePayloadHash_filters_data (sha : String → String)
    (nodeId : String) (tips : TipSelection) :
    payloadEmptyData.type = payloadFooData.type ∧
    payloadEmptyData.timestamp = payloadFooData.timestamp ∧
    payloadEmptyData.data ≠ payloadFooData.data ∧
    DAGUtils.canonicalPayload payloadEmptyData =
      DAGUtils.canonicalPayload payloadFooData ∧
    DAGUtils.calculatePayloadHash sha payloadEmptyData =
      DAGUtils.calculatePayloadHash sha payloadFooData ∧
    VertexBuilder.buildHashes sha nodeId payloadEmptyData tips =
      VertexBuilder.buildHashes sha nodeId payloadFooData tips := by
  have hcanon : DAGUtils.canonicalPayload payloadEmptyData =
      DAGUtils.canonicalPayload payloadFooData := by decide
  refine ⟨rfl, rfl, ?_, hcanon, ?_, ?_⟩
  · intro h
    simp only [payloadEmptyData, payloadFooData] at h
    exact JsonFields.noConfusion (Json.obj.inj h)
  · unfold DAGUtils.calculatePayloadHash
    exact congrArg sha hcanon
  · unfold VertexBuilder.buildHashes DAGUtils.calculatePayloadHash
    rw [hcanon]
    rfl

/-- C1 counterexample: on a nonempty list whose unanchored subset is empty,
`selectTips` does not return the genesis pair with depth 0; it returns the
latest (anchored) vertex with its depth plus one. -/
theorem selectTips_allAnchored_counterexample :
    List.filter isUnanchoredB [anchoredOnly] = [] ∧
    DAGUtils.selectTips (fun _ => 1) [anchoredOnly] none (fun _ => 0) =
      some { tip1Hash := "av", tip2Hash := "av", depth := 4 } ∧
    DAGUtils.selectTips (fun _ => 1) [anchoredOnly] none (fun _ => 0) ≠
      some { tip1Hash := GENESIS_HASH, tip2Hash := GENESIS_HASH, depth := 0 } := by
  refine ⟨by decide, by decide, by decide⟩

/-- C1 (amended): `selectTips` returns the genesis pair with depth 0 when the
whole vertex list is empty; when the list is nonempty but its unanchored
subset is empty it returns the last vertex of the list twice with that depth
plus one; and when the unanchored subset has exactly one element it returns
that vertex twice with its depth plus one. -/
theorem selectTips_degenerate_cases (expF : Rat → Rat) (seed : Option Rat)
    (ext : Nat → Rat) (V : List DagVertex) :
    (V = [] → DAGUtils.selectTips expF V seed ext =
      some { tip1Hash := GENESIS_HASH, tip2Hash := GENESIS_HASH, depth := 0 }) ∧
    (∀ hne : V ≠ [], V.filter isUnanchoredB = [] →
      DAGUtils.selectTips expF V seed ext =
        some { tip1Hash := (V.getLast hne).vertexHash,
               tip2Hash := (V.getLast hne).vertexHash,
               depth := (V.getLast hne).depth + 1 }) ∧
    (∀ u, V.filter isUnanchoredB = [u] →
      DAGUtils.selectTips expF V seed ext =
        some { tip1Hash := u.vertexHash, tip2Hash := u.vertexHash,
               depth := u.depth + 1 }) := by
  refine ⟨?_, ?_, ?_⟩
  · intro hV
    subst hV
    rfl
  · intro hne hU
    unfold DAGUtils.selectTips
    rw [if_neg (by simp [hne]), hU, List.getLast?_eq_getLast V hne]
  · intro u hU
    have hne : V ≠ [] := by
      intro hV
      subst hV
      simp at hU
    unfold DAGUtils.selectTips
    rw [if_neg (by simp [hne]), hU]

/-- C1 witness: on a list holding one anchored and one unanchored vertex, the
single-unanchored case applies and yields that vertex twice at depth 2. -/
theorem selectTips_degenerate_cases_witness :
    DAGUtils.selectTips (fun _ => 1) [anchoredOnly, tipA] none (fun _ => 0) =
      some { tip1Hash := "a", tip2Hash := "a", depth := 2 } :=
  (selectTips_degenerate_cases (fun _ => 1) none (fun _ => 0)
    [anchoredOnly, tipA]).2.2 tipA (by decide)

/-- C5 counterexample: on the three-vertex chain a <- b <- c stored in hash
order with default weights, a second run of
`DAGStorage.updateCumulativeWeights` immediately after a completed run still
changes stored weights (the first pass reads not-yet-refreshed child weights),
so the in-place refresh is not idempotent. -/
theorem updateCumulativeWeights_not_idempotent :
    DAGStorage.updateCumulativeWeights
        (DAGStorage.updateCumulativeWeights [chainA, chainB, chainC]) ≠
      DAGStorage.updateCumulativeWeights [chainA, chainB, chainC] := by decide

/-- A refresh iteration at an absent position is a no-op. -/
theorem updateStep_of_none (cur : List DagVertex) (k : Nat)
    (hk : cur[k]? = none) : DAGStorage.updateStep cur k = cur := by
  unfold DAGStorage.updateStep
  rw [hk]

/-- A refresh iteration at a present position either skips the write or sets
the recomputed weight. -/
theorem updateStep_of_some (cur : List DagVertex) (k : Nat) (u : DagVertex)
    (hk : cur[k]? = some u) :
    DAGStorage.updateStep cur k =
      if DAGUtilsLegacy.calculateCumulativeWeight u cur == u.cumulativeWeight then
        cur
      else
        cur.set k
          { u with cumulativeWeight :=
              DAGUtilsLegacy.calculateCumulativeWeight u cur } := by
  unfold DAGStorage.updateStep
  rw [hk]

/-- Iterations over store positions other than `j` leave position `j`
untouched: each refresh iteration only writes its own index. -/
theorem updateFold_getElem_untouched :
    ∀ (idxs : List Nat) (cur : List DagVertex) (j : Nat), j ∉ idxs →
      (idxs.foldl DAGStorage.updateStep cur)[j]? = cur[j]? := by
  intro idxs
  induction idxs with
  | nil =>
      intro cur j hj
      rfl
  | cons k rest ih =>
      intro cur j hj
      have hjk : j ≠ k := by
        intro h
        exact hj (by rw [h]; exact List.mem_cons_self k rest)
      have hjr : j ∉ rest := fun h => hj (List.mem_cons_of_mem k h)
      rw [List.foldl_cons, ih (DAGStorage.updateStep cur k) j hjr]
      cases hv : cur[k]? with
      | none => rw [updateStep_of_none cur k hv]
      | some v =>
          rw [updateStep_of_some cur k v hv]
          by_cases hbe : (DAGUtilsLegacy.calculateCumulativeWeight v cur ==
              v.cumulativeWeight) = true
          · rw [if_pos hbe]
          · rw [if_neg hbe]
            exact List.getElem?_set_ne (Ne.symm hjk)

/-- A refresh pass over pairwise-distinct store positions that returns the
store unchanged can only have skipped every write, so every indexed vertex
already satisfied the defining weight equation. -/
theorem updateFold_fixpoint_of_unchanged :
    ∀ (idxs : List Nat), idxs.Nodup →
      ∀ cur : List DagVertex, idxs.foldl DAGStorage.updateStep cur = cur →
        ∀ j ∈ idxs, ∀ v, cur[j]? = some v →
          DAGUtilsLegacy.calculateCumulativeWeight v cur = v.cumulativeWeight := by
  intro idxs
  induction idxs with
  | nil =>
      intro _ cur _ j hj
      exact absurd hj (by simp)
  | cons k rest ih =>
      intro hnd cur hfold j hj v hv
      have hknr : k ∉ rest := (List.nodup_cons.1 hnd).1
      have hndr : rest.Nodup := (List.nodup_cons.1 hnd).2
      rw [List.foldl_cons] at hfold
      cases hk : cur[k]? with
      | none =>
          rw [updateStep_of_none cur k hk] at hfold
          rcases List.mem_cons.1 hj with rfl | hjr
          · rw [hk] at hv
            exact absurd hv (by simp)
          · exact ih hndr cur hfold j hjr v hv
      | some u =>
          by_cases hbe : DAGUtilsLegacy.calculateCumulativeWeight u cur = u.cumulativeWeight
          · have hstep1 : DAGStorage.updateStep cur k = cur := by
              rw [updateStep_of_some cur k u hk,
                if_pos (by rw [hbe]; exact beq_self_eq_true _)]
            rw [hstep1] at hfold
            rcases List.mem_cons.1 hj with rfl | hjr
            · rw [hk, Option.some_inj] at hv
              rw [← hv]
              exact hbe
            · exact ih hndr cur hfold j hjr v hv
          · exfalso
            have hstep1 : DAGStorage.updateStep cur k =
                cur.set k
                  { u with cumulativeWeight :=
                      DAGUtilsLegacy.calculateCumulativeWeight u cur } := by
              rw [updateStep_of_some cur k u hk, if_neg (by simp [hbe])]
            rw [hstep1] at hfold
            have hlen : k < cur.length := by
              rcases List.getElem?_eq_some.1 hk with ⟨h, _⟩
              exact h
            have huntouched := updateFold_getElem_untouched rest
              (cur.set k
                { u with cumulativeWeight :=
                    DAGUtilsLegacy.calculateCumulativeWeight u cur }) k hknr
            rw [hfold, hk, List.getElem?_set_self hlen, Option.some_inj] at huntouched
            exact hbe (congrArg DagVertex.cumulativeWeight huntouched).symm

/-- C5 (amended): `recalculateAllWeights` is a pure function, so repeated runs
on the same list return the identical weight map; and the stored-weight
refresh `updateCumulativeWeights` leaves the store unchanged exactly when the
stored weights already satisfy the defining weight equation - so a second run
is a no-op precisely from such a fixpoint, which a single pass need not
reach. -/
theorem weightPropagation_idempotence (vs all : List DagVertex) :
    DAGUtils.recalculateAllWeights vs = DAGUtils.recalculateAllWeights vs ∧
    (DAGStorage.updateCumulativeWeights all = all ↔
      ∀ v ∈ all,
        DAGUtilsLegacy.calculateCumulativeWeight v all = v.cumulativeWeight) := by
  refine ⟨rfl, ?_, ?_⟩
  · intro hupd v hv
    obtain ⟨j, hj⟩ := List.mem_iff_getElem?.1 hv
    have hjlen : j < all.length := by
      rcases List.getElem?_eq_some.1 hj with ⟨h, _⟩
      exact h
    exact updateFold_fixpoint_of_unchanged (List.range all.length)
      (List.nodup_range all.length) all hupd j (List.mem_range.2 hjlen) v hj
  · intro hfix
    unfold DAGStorage.updateCumulativeWeights
    have hstep : ∀ idxs : List Nat,
        idxs.foldl DAGStorage.updateStep all = all := by
      intro idxs
      induction idxs with
      | nil => rfl
      | cons i rest ih =>
          rw [List.foldl_cons]
          have hone : DAGStorage.updateStep all i = all := by
            cases hv : all[i]? with
            | none => exact updateStep_of_none all i hv
            | some v =>
                rw [updateStep_of_some all i v hv,
                  if_pos (by
                    rw [hfix v (List.getElem?_mem hv)]
                    exact beq_self_eq_true _)]
          rw [hone, ih]
    exact hstep (List.range all.length)

/-- C5 witness: the chain with correct stored weights 3, 2, 1 is a fixpoint,
and a refresh run leaves it untouched. -/
theorem weightPropagation_idempotence_witness :
    DAGStorage.updateCumulativeWeights
        [{ chainA with cumulativeWeight := 3 },
         { chainB with cumulativeWeight := 2 },
         { chainC with cumulativeWeight := 1 }] =
      [{ chainA with cumulativeWeight := 3 },
       { chainB with cumulativeWeight := 2 },
       { chainC with cumulativeWeight := 1 }] :=
  (weightPropagation_idempotence []
    [{ chainA with cumulativeWeight := 3 },
     { chainB with cumulativeWeight := 2 },
     { chainC with cumulativeWeight := 1 }]).2.mpr (by decide)

/-- Both walks of `walkPair` draw from the seeded generator whenever the seed
is nonzero, so the external stream is never consulted. -/
theorem walkPair_seeded_det (expF : Rat → Rat) (U : List DagVertex) (s : Rat)
    (e1 e2 : Nat → Rat) (h : s ≠ 0) :
    DAGUtils.walkPair expF U (some s) e1 = DAGUtils.walkPair expF U (some s) e2 := by
  simp only [DAGUtils.walkPair, if_neg h]

/-- C3 (amended): for every nonzero numeric seed, tip selection is a
deterministic function of the vertex list and the seed: the external
`Math.random` stream is never consulted, so two calls agree.  (The seed 0 is
falsy in the source, which sends the second walk to `Math.random`.) -/
theorem selectTips_deterministic (expF : Rat → Rat) (V : List DagVertex)
    (s : Rat) (e1 e2 : Nat → Rat) (h : s ≠ 0) :
    DAGUtils.selectTips expF V (some s) e1 =
      DAGUtils.selectTips expF V (some s) e2 := by
  unfold DAGUtils.selectTips
  split
  · rfl
  · split
    · rfl
    · rfl
    · exact congrArg DAGUtils.combineTips (walkPair_seeded_det expF _ s e1 e2 h)

/-- C3 witness: with seed 1 on the two-tip example list, two calls with
different external streams coincide. -/
theorem selectTips_deterministic_witness :
    DAGUtils.selectTips (fun _ => 1) [tipA, tipB] (some 1) (fun _ => 0) =
      DAGUtils.selectTips (fun _ => 1) [tipA, tipB] (some 1) (fun _ => 3 / 4) :=
  selectTips_deterministic (fun _ => 1) [tipA, tipB] 1 (fun _ => 0)
    (fun _ => 3 / 4) (by norm_num)

/-- Evaluation of tip selection at seed 0 when the external stream returns 0:
the seeded first walk lands on the latest tip b, and the external second walk
also lands on b. -/
theorem selectTips_seedZero_extLow :
    DAGUtils.selectTips (fun _ => 1) [tipA, tipB] (some 0) (fun _ => 0) =
      some { tip1Hash := "b", tip2Hash := "b", depth := 2 } := by
  have h1 : Int.floor ((49297 : Rat) / 233280) = 0 := by
    rw [Int.floor_eq_iff]
    norm_num
  have h2 : Int.floor ((49297 : Rat) / 233280 * 2) = 0 := by
    rw [Int.floor_eq_iff]
    norm_num
  norm_num [DAGUtils.selectTips, isUnanchoredB, tipA, tipB, DAGUtils.walkPair,
    DAGUtils.performRandomWalk, DAGUtils.walkLoop, DAGUtils.seededRandom,
    DAGUtils.lcgState, DAGUtils.lcgNext, jsMod, jsTrunc, jsGet,
    DAGUtils.combineTips, DAGUtils.vmapOf, DAGUtils.approversOf, h1, h2,
    List.filter]

/-- Evaluation of tip selection at seed 0 when the external stream returns
three quarters: the external second walk now lands on the other tip a. -/
theorem selectTips_seedZero_extHigh :
    DAGUtils.selectTips (fun _ => 1) [tipA, tipB] (some 0) (fun _ => 3 / 4) =
      some { tip1Hash := "b", tip2Hash := "a", depth := 2 } := by
  have h1 : Int.floor ((49297 : Rat) / 233280) = 0 := by
    rw [Int.floor_eq_iff]
    norm_num
  have h2 : Int.floor ((49297 : Rat) / 233280 * 2) = 0 := by
    rw [Int.floor_eq_iff]
    norm_num
  have h3 : Int.floor ((3 : Rat) / 4 * 2) = 1 := by
    rw [Int.floor_eq_iff]
    norm_num
  norm_num [DAGUtils.selectTips, isUnanchoredB, tipA, tipB, DAGUtils.walkPair,
    DAGUtils.performRandomWalk, DAGUtils.walkLoop, DAGUtils.seededRandom,
    DAGUtils.lcgState, DAGUtils.lcgNext, jsMod, jsTrunc, jsGet,
    DAGUtils.combineTips, DAGUtils.vmapOf, DAGUtils.approversOf, h1, h2, h3,
    List.filter]

/-- C3 counterexample: at the numeric seed 0 (falsy in the source) the second
walk falls back to `Math.random`, and two calls on the identical vertex list
and seed return different tip selections for different external streams. -/
theorem selectTips_seed_zero_nondeterministic :
    DAGUtils.selectTips (fun _ => 1) [tipA, tipB] (some 0) (fun _ => 0) ≠
      DAGUtils.selectTips (fun _ => 1) [tipA, tipB] (some 0) (fun _ => 3 / 4) := by
  rw [selectTips_seedZero_extLow, selectTips_seedZero_extHigh]
  simp

/-- The JavaScript remainder of a nonnegative dividend by a positive divisor
lies in `[0, m)`. -/
theorem jsMod_bounds (x m : Rat) (hx : 0 ≤ x) (hm : 0 < m) :
    0 ≤ jsMod x m ∧ jsMod x m < m := by
  have h0 : 0 ≤ x / m := div_nonneg hx hm.le
  rw [jsMod, jsTrunc, if_pos h0]
  have hfl : ((Int.floor (x / m) : Int) : Rat) ≤ x / m := Int.floor_le (x / m)
  have hub : x / m < Int.floor (x / m) + 1 := Int.lt_floor_add_one (x / m)
  rw [le_div_iff hm] at hfl
  rw [div_lt_iff hm] at hub
  constructor
  · nlinarith
  · nlinarith

/-- Generator states after the first step stay in `[0, 233280)` for a
nonnegative seed. -/
theorem lcgState_nonneg (s : Rat) (hs : 0 ≤ s) (k : Nat) :
    0 ≤ DAGUtils.lcgState s k ∧ (k ≠ 0 → DAGUtils.lcgState s k < 233280) := by
  induction k with
  | zero => exact ⟨hs, fun h => absurd rfl h⟩
  | succ n ih =>
      have harg : (0 : Rat) ≤ DAGUtils.lcgState s n * 9301 + 49297 := by nlinarith [ih.1]
      have := jsMod_bounds (DAGUtils.lcgState s n * 9301 + 49297) 233280 harg (by norm_num)
      exact ⟨this.1, fun _ => this.2⟩

/-- Values of the seeded generator lie in `[0, 1)` for a nonnegative seed. -/
theorem seededRandom_bounds (s : Rat) (hs : 0 ≤ s) (k : Nat) :
    0 ≤ DAGUtils.seededRandom s k ∧ DAGUtils.seededRandom s k < 1 := by
  unfold DAGUtils.seededRandom
  have h := lcgState_nonneg s hs (k + 1)
  constructor
  · exact div_nonneg h.1 (by norm_num)
  · rw [div_lt_one (by norm_num)]
    exact h.2 (Nat.succ_ne_zero k)

/-- The floor of `r * m` for `r` in `[0, 1)` and positive `m` lies in
`[0, m)`. -/
theorem floor_mul_bounds (r : Rat) (m : Int) (h0 : 0 ≤ r) (h1 : r < 1)
    (hm : 0 < m) : 0 ≤ Int.floor (r * (m : Rat)) ∧ Int.floor (r * (m : Rat)) < m := by
  have hmQ : (0 : Rat) < (m : Rat) := by exact_mod_cast hm
  constructor
  · exact Int.floor_nonneg.2 (mul_nonneg h0 hmQ.le)
  · exact Int.floor_lt.2 (by nlinarith)

/-- In-range element access succeeds. -/
theorem jsGet_isSome (l : List α) (i : Int) (h0 : 0 ≤ i) (h1 : i < (l.length : Int)) :
    (jsGet l i).isSome = true := by
  rw [jsGet, if_pos h0]
  have : i.toNat < l.length := by omega
  rw [List.getElem?_eq_getElem this]
  rfl

/-- The walk loop returns a vertex whenever the RNG values stay in `[0, 1)`. -/
theorem walkLoop_isSome (expF : Rat → Rat) (vmap : String → Option DagVertex)
    (app : String → List DagVertex) (fuel : Nat) (rng : Nat → Rat)
    (hrng : ∀ k, 0 ≤ rng k ∧ rng k < 1) :
    ∀ (pos : Nat) (c : DagVertex),
      (DAGUtils.walkLoop expF vmap app fuel rng pos c).1.isSome = true := by
  induction fuel with
  | zero => intro pos c; rfl
  | succ n ih =>
      intro pos c
      unfold DAGUtils.walkLoop
      cases hv : (app c.vertexHash).filter (fun a =>
        (a.tipReference1 == GENESIS_HASH || (vmap a.tipReference1).isSome) &&
          (a.tipReference2 == GENESIS_HASH || (vmap a.tipReference2).isSome)) with
      | nil => rfl
      | cons v0 rest =>
          simp only []
          split
          · have hlen : (0 : Int) < ((v0 :: rest).length : Int) := by
              simp only [List.length_cons]
              omega
            have hfb : 0 ≤ Int.floor (rng pos * ((v0 :: rest).length : Rat)) ∧
                Int.floor (rng pos * ((v0 :: rest).length : Rat)) <
                  ((v0 :: rest).length : Int) := by
              have hfb0 := floor_mul_bounds (rng pos) ((v0 :: rest).length : Int)
                (hrng pos).1 (hrng pos).2 hlen
              simpa using hfb0
            have hsome := jsGet_isSome (v0 :: rest)
              (Int.floor (rng pos * ((v0 :: rest).length : Rat))) hfb.1 hfb.2
            cases hj : jsGet (v0 :: rest)
                (Int.floor (rng pos * ((v0 :: rest).length : Rat))) with
            | none =>
                rw [hj] at hsome
                exact absurd hsome (by simp)
            | some nxt => exact ih (pos + 1) nxt
          · exact ih (pos + 1) _

/-- A single walk returns a vertex whenever the RNG values stay in `[0, 1)`
and the vertex list is nonempty. -/
theorem performRandomWalk_isSome (expF : Rat → Rat) (vertices : List DagVertex)
    (vmap : String → Option DagVertex) (app : String → List DagVertex)
    (rng : Nat → Rat) (pos : Nat) (hrng : ∀ k, 0 ≤ rng k ∧ rng k < 1)
    (hne : vertices ≠ []) :
    (DAGUtils.performRandomWalk expF vertices vmap app rng pos).1.isSome = true := by
  unfold DAGUtils.performRandomWalk
  have hlen : (0 : Int) < (vertices.length : Int) := by
    cases vertices with
    | nil => exact absurd rfl hne
    | cons a l => simp only [List.length_cons]; omega
  have hm : (0 : Int) < min 10 (vertices.length : Int) := by omega
  have hfb := floor_mul_bounds (rng pos) (min 10 (vertices.length : Int))
    (hrng pos).1 (hrng pos).2 hm
  have hidx0 : (0 : Int) ≤
      (vertices.length : Int) - 1 - Int.floor (rng pos * ((min 10 (vertices.length : Int) : Int) : Rat)) := by
    omega
  have hidx1 :
      (vertices.length : Int) - 1 - Int.floor (rng pos * ((min 10 (vertices.length : Int) : Int) : Rat)) <
        (vertices.length : Int) := by
    omega
  have hsome := jsGet_isSome vertices _ hidx0 hidx1
  cases hj : jsGet vertices
      ((vertices.length : Int) - 1 -
        Int.floor (rng pos * ((min 10 (vertices.length : Int) : Int) : Rat))) with
  | none =>
      rw [hj] at hsome
      exact absurd hsome (by simp)
  | some c => exact walkLoop_isSome expF vmap app 100 rng hrng (pos + 1) c

/-- Combining two successful walks yields a tip selection. -/
theorem combineTips_isSome (o1 o2 : Option DagVertex) (h1 : o1.isSome = true)
    (h2 : o2.isSome = true) : (DAGUtils.combineTips (o1, o2)).isSome = true := by
  cases o1 with
  | none => exact absurd h1 (by simp)
  | some a =>
      cases o2 with
      | none => exact absurd h2 (by simp)
      | some b => rfl

/-- A crashed first walk aborts tip selection. -/
theorem combineTips_none_left (x : Option DagVertex) :
    DAGUtils.combineTips (none, x) = none := rfl

/-- Both walks of `walkPair` succeed for in-range external streams and a
nonnegative seed. -/
theorem walkPair_isSome (expF : Rat → Rat) (U : List DagVertex)
    (seed : Option Rat) (ext : Nat → Rat)
    (hext : ∀ k, 0 ≤ ext k ∧ ext k < 1)
    (hseed : ∀ s, seed = some s → 0 ≤ s) (hne : U ≠ []) :
    (DAGUtils.combineTips (DAGUtils.walkPair expF U seed ext)).isSome = true := by
  unfold DAGUtils.walkPair
  rcases seed with _ | s
  · exact combineTips_isSome _ _
      (performRandomWalk_isSome expF U _ _ ext _ hext hne)
      (performRandomWalk_isSome expF U _ _ ext _ hext hne)
  · have hs : 0 ≤ s := hseed s rfl
    refine combineTips_isSome _ _
      (performRandomWalk_isSome expF U _ _ (DAGUtils.seededRandom s) 0
        (seededRandom_bounds s hs) hne) ?_
    by_cases h0 : s = 0
    · rw [if_pos h0]
      exact performRandomWalk_isSome expF U _ _ ext 0 hext hne
    · rw [if_neg h0]
      exact performRandomWalk_isSome expF U _ _
        (DAGUtils.seededRandom (s * DAGUtils.goldenFactor)) 0
        (seededRandom_bounds _ (mul_nonneg hs (by norm_num [DAGUtils.goldenFactor])))
        hne

/-- C10 (amended): the walk loop is capped (with the budget spent it returns
the current position unchanged), and tip selection always returns a
`TipSelection` provided the external RNG values lie in `[0, 1)` (as
`Math.random` does) and any supplied seed is nonnegative.  (A sufficiently
negative seed makes the generator return negative values, the entry index
falls outside the array, and the walk aborts - see the counterexample.) -/
theorem selectTips_total_of_bounded_rng (expF : Rat → Rat) (V : List DagVertex)
    (seed : Option Rat) (ext : Nat → Rat)
    (hext : ∀ k, 0 ≤ ext k ∧ ext k < 1)
    (hseed : ∀ s, seed = some s → 0 ≤ s) :
    (DAGUtils.selectTips expF V seed ext).isSome = true ∧
    (∀ (vmap : String → Option DagVertex) (app : String → List DagVertex)
        (rng : Nat → Rat) (pos : Nat) (c : DagVertex),
      DAGUtils.walkLoop expF vmap app 0 rng pos c = (some c, pos)) := by
  refine ⟨?_, fun _ _ _ _ _ => rfl⟩
  unfold DAGUtils.selectTips
  split
  · rfl
  next hne =>
    split
    · cases hg : V.getLast? with
      | none =>
          rw [List.getLast?_eq_none_iff] at hg
          rw [hg] at hne
          exact absurd rfl hne
      | some latest => rfl
    · rfl
    · exact walkPair_isSome expF _ seed ext hext hseed (by simp)

/-- C10 witness: with seed 2 and a zero external stream on the two-tip list,
tip selection returns a value. -/
theorem selectTips_total_of_bounded_rng_witness :
    (DAGUtils.selectTips (fun _ => 1) [tipA, tipB] (some 2) (fun _ => 0)).isSome
      = true :=
  (selectTips_total_of_bounded_rng (fun _ => 1) [tipA, tipB] (some 2)
    (fun _ => 0) (fun _ => by norm_num)
    (fun s hs => by cases hs; norm_num)).1

/-- The first value drawn from the generator seeded with -6. -/
theorem seededRandom_neg6_first :
    DAGUtils.seededRandom (-6) 0 = -6509 / 233280 := by
  have h1 : Int.floor ((6509 : Rat) / 233280) = 0 := by
    rw [Int.floor_eq_iff]
    norm_num
  norm_num [DAGUtils.seededRandom, DAGUtils.lcgState, DAGUtils.lcgNext, jsMod,
    jsTrunc, h1]

/-- With seed -6 the first draw is negative, the entry index is -1, and the
walk dereferences an out-of-range element: the walk crashes. -/
theorem performRandomWalk_neg6_crash :
    DAGUtils.performRandomWalk (fun _ => 1) [tipA, tipB]
      (DAGUtils.vmapOf [tipA, tipB]) (DAGUtils.approversOf [tipA, tipB])
      (DAGUtils.seededRandom (-6)) 0 = (none, 1) := by
  have h4 : Int.floor (-((6509 : Rat) / 116640)) = -1 := by
    rw [Int.floor_eq_iff]
    norm_num
  have h2 : Int.floor (-(6509 : Rat) / 233280 * 2) = -1 := by
    rw [Int.floor_eq_iff]
    norm_num
  norm_num [DAGUtils.performRandomWalk, seededRandom_neg6_first, jsGet, h2, h4]
  rfl

/-- C10 counterexample: tip selection with the numeric seed -6 on a two-tip
list returns no `TipSelection` at all (the source throws a TypeError), so
`selectTips` is not total over every RNG seed. -/
theorem selectTips_negative_seed_crash :
    DAGUtils.selectTips (fun _ => 1) [tipA, tipB] (some (-6)) (fun _ => 0) =
      none := by
  have hsel : DAGUtils.selectTips (fun _ => 1) [tipA, tipB] (some (-6)) (fun _ => 0) =
      DAGUtils.combineTips
        (DAGUtils.walkPair (fun _ => 1) [tipA, tipB] (some (-6)) (fun _ => 0)) := rfl
  rw [hsel]
  simp only [DAGUtils.walkPair]
  rw [if_neg (by norm_num : ¬(-6 : Rat) = 0)]
  rw [performRandomWalk_neg6_crash]
  rfl

/-- First-match search by hash finds the unique owner of the hash in a list
with pairwise-distinct hashes. -/
theorem find?_hash_eq_of_nodup (l : List DagVertex)
    (hnd : (l.map (fun v => v.vertexHash)).Nodup) (b : DagVertex) (hb : b ∈ l) :
    l.find? (fun v => v.vertexHash == b.vertexHash) = some b := by
  induction l with
  | nil => exact absurd hb (by simp)
  | cons a t ih =>
      rcases List.mem_cons.1 hb with rfl | hbt
      · rw [List.find?_cons_of_pos _ (by simp)]
      · have hna : a.vertexHash ∉ t.map (fun v => v.vertexHash) :=
          (List.nodup_cons.1 hnd).1
        have hne : (a.vertexHash == b.vertexHash) = false := by
          rw [beq_eq_false_iff_ne]
          intro hEq
          exact hna (hEq ▸ List.mem_map_of_mem (fun v => v.vertexHash) hbt)
        rw [List.find?_cons_of_neg _ (by simp [hne])]
        exact ih (List.nodup_cons.1 hnd).2 hbt

/-- With pairwise-distinct hashes, the last-write-wins vertex map resolves
the hash of a member to that member. -/
theorem vmapOf_eq_of_nodup (vs : List DagVertex)
    (hnd : (vs.map (fun v => v.vertexHash)).Nodup) (b : DagVertex) (hb : b ∈ vs) :
    DAGUtils.vmapOf vs b.vertexHash = some b := by
  unfold DAGUtils.vmapOf
  refine find?_hash_eq_of_nodup vs.reverse ?_ b (by simpa using hb)
  exact ((vs.reverse_perm).map (fun v => v.vertexHash)).nodup_iff.2 hnd

/-- A validated nonempty set passed every individual check. -/
theorem isValidDAG_checks (vs : List DagVertex)
    (hv : DAGUtils.isValidDAG vs = true) (hne : vs ≠ []) :
    DAGUtils.depthsOrdered vs = true ∧ DAGUtils.anchoringOk vs = true := by
  unfold DAGUtils.isValidDAG at hv
  rw [if_neg (by simp [hne])] at hv
  simp only [Bool.and_eq_true] at hv
  exact ⟨hv.1.2, hv.2⟩

/-- Check 3 of a validated set makes depth strictly decrease along every
parent-reference edge, given pairwise-distinct hashes. -/
theorem depth_decreasing_of_valid (vs : List DagVertex)
    (hnd : (vs.map (fun v => v.vertexHash)).Nodup)
    (h3 : DAGUtils.depthsOrdered vs = true) :
    ∀ a b, a ∈ vs → refEdge vs a b → b.depth < a.depth := by
  intro a b ha hedge
  obtain ⟨hb, href, hbg⟩ := hedge
  have hall := List.all_eq_true.1 h3 a ha
  simp only [Bool.and_eq_true, Bool.or_eq_true] at hall
  have hdg : DAGUtils.depthsGet vs b.vertexHash = b.depth := by
    unfold DAGUtils.depthsGet
    rw [vmapOf_eq_of_nodup vs hnd b hb]
  rcases href with h1 | h2
  · rcases hall.1 with hg | hd
    · exact absurd (h1 ▸ (beq_iff_eq.1 hg)) hbg
    · have := of_decide_eq_true hd
      rw [h1, hdg] at this
      exact this
  · rcases hall.2 with hg | hd
    · exact absurd (h2 ▸ (beq_iff_eq.1 hg)) hbg
    · have := of_decide_eq_true hd
      rw [h2, hdg] at this
      exact this

/-- Depth strictly decreases along any chain of parent-reference edges. -/
theorem transGen_depth_lt (vs : List DagVertex)
    (hdec : ∀ a b, a ∈ vs → refEdge vs a b → b.depth < a.depth) :
    ∀ a b, Relation.TransGen (refEdge vs) a b → a ∈ vs →
      b.depth < a.depth ∧ b ∈ vs := by
  intro a b h
  induction h with
  | single hab => exact fun ha => ⟨hdec _ _ ha hab, hab.1⟩
  | tail hterm hlast ih =>
      intro ha
      obtain ⟨hd, hmem⟩ := ih ha
      exact ⟨lt_trans (hdec _ _ hmem hlast) hd, hlast.1⟩

/-- C6 (amended): on a list with pairwise-distinct vertex hashes, a vertex
whose non-genesis parent references reach itself (directly or transitively
through parent references within the list) makes `isValidDAG` return false.
(With duplicate hashes the collision can mask the cycle - see the
counterexample.) -/
theorem isValidDAG_rejects_cycles (vs : List DagVertex)
    (hnd : (vs.map (fun v => v.vertexHash)).Nodup) (v : DagVertex)
    (hv : v ∈ vs) (hcyc : Relation.TransGen (refEdge vs) v v) :
    DAGUtils.isValidDAG vs = false := by
  rcases Bool.eq_false_or_eq_true (DAGUtils.isValidDAG vs) with hT | hF
  case inr => exact hF
  case inl =>
    have hne : vs ≠ [] := by
      intro h0
      subst h0
      exact absurd hv (by simp)
    have hchecks := isValidDAG_checks vs hT hne
    have hlt := (transGen_depth_lt vs
      (depth_decreasing_of_valid vs hnd hchecks.1) v v hcyc hv).1
    exact absurd hlt (lt_irrefl v.depth)


/-- C6 witness: the direct self-reference example is rejected. -/
theorem isValidDAG_rejects_cycles_witness :
    DAGUtils.isValidDAG [selfRefVertex] = false :=
  isValidDAG_rejects_cycles [selfRefVertex] (by decide) selfRefVertex
    (by decide)
    (Relation.TransGen.single ⟨by decide, Or.inl rfl, by decide⟩)

/-- C6 counterexample: `dupSelfRef` references its own hash directly, yet the
list containing it together with a same-hash partner passes `isValidDAG`,
because the last-write-wins index resolves the shared hash to the partner
with genesis parents: the cycle-containing set is not rejected as the claim
states. -/
theorem isValidDAG_duplicate_hash_cycle_missed :
    dupSelfRef.tipReference1 = dupSelfRef.vertexHash ∧
    dupSelfRef.vertexHash ≠ GENESIS_HASH ∧
    DAGUtils.isValidDAG [dupSelfRef, dupPlain] = true :=
  ⟨rfl, by decide, by decide⟩

/-- C7 (amended): on a list with pairwise-distinct vertex hashes, an anchored
vertex with a non-genesis parent in the list whose `isAnchored` is not the
string true fails validation; and independently of hash distinctness, an
anchored vertex whose anchor timestamp precedes its creation time fails
validation.  (With duplicate hashes an anchored partner can mask the
unanchored parent - see the counterexample.) -/
theorem isValidDAG_anchoring_rules (vs : List DagVertex) :
    ((vs.map (fun v => v.vertexHash)).Nodup →
      ∀ c p, c ∈ vs → p ∈ vs → c.isAnchored = some "true" →
        (c.tipReference1 = p.vertexHash ∨ c.tipReference2 = p.vertexHash) →
        p.vertexHash ≠ GENESIS_HASH → p.isAnchored ≠ some "true" →
        DAGUtils.isValidDAG vs = false) ∧
    (∀ v ∈ vs, v.isAnchored = some "true" →
      ∀ ta tc, v.anchorTimestamp = some ta → v.createdAt = some tc → ta < tc →
        DAGUtils.isValidDAG vs = false) := by
  constructor
  · intro hnd c p hc hp hanc href hpg hpn
    rcases Bool.eq_false_or_eq_true (DAGUtils.isValidDAG vs) with hT | hF
    case inr => exact hF
    case inl =>
      have hne : vs ≠ [] := by
        intro h0
        subst h0
        exact absurd hc (by simp)
      have h4 := (isValidDAG_checks vs hT hne).2
      have hall := List.all_eq_true.1 h4 c hc
      rw [if_pos (by simp [hanc])] at hall
      simp only [Bool.and_eq_true, Bool.or_eq_true] at hall
      have hag : DAGUtils.anchoredGet vs p.vertexHash = some false := by
        unfold DAGUtils.anchoredGet
        rw [vmapOf_eq_of_nodup vs hnd p hp]
        have hb : (p.isAnchored == some "true") = false := by
          rw [beq_eq_false_iff_ne]
          exact hpn
        simp [hb]
      rcases href with h1 | h2
      · rcases hall.1.2 with hg | hnb
        · exact absurd (h1 ▸ (beq_iff_eq.1 hg)) hpg
        · rw [h1, hag] at hnb
          simp at hnb
      · rcases hall.2 with hg | hnb
        · exact absurd (h2 ▸ (beq_iff_eq.1 hg)) hpg
        · rw [h2, hag] at hnb
          simp at hnb
  · intro v hv hanc ta tc hta htc hlt
    rcases Bool.eq_false_or_eq_true (DAGUtils.isValidDAG vs) with hT | hF
    case inr => exact hF
    case inl =>
      have hne : vs ≠ [] := by
        intro h0
        subst h0
        exact absurd hv (by simp)
      have h4 := (isValidDAG_checks vs hT hne).2
      have hall := List.all_eq_true.1 h4 v hv
      rw [if_pos (by simp [hanc])] at hall
      simp only [Bool.and_eq_true] at hall
      have hts := hall.1.1
      rw [hta, htc] at hts
      have := of_decide_eq_true hts
      omega

/-- C7 witness: the anchored child with an unanchored parent is rejected. -/
theorem isValidDAG_anchoring_rules_witness :
    DAGUtils.isValidDAG [unanchParent, anchChild] = false :=
  (isValidDAG_anchoring_rules [unanchParent, anchChild]).1 (by decide)
    anchChild unanchParent (by decide) (by decide) (by decide) (Or.inl rfl)
    (by decide) (by decide)

/-- C7 counterexample: the anchored child references the unanchored parent
(present in the list), yet validation succeeds because a later anchored
vertex with the same hash overwrites the anchored-status entry: the claimed
rejection does not happen once hashes collide. -/
theorem isValidDAG_duplicate_hash_anchoring_missed :
    anchChild.isAnchored = some "true" ∧
    anchChild.tipReference1 = unanchParent.vertexHash ∧
    unanchParent.vertexHash ≠ GENESIS_HASH ∧
    unanchParent.isAnchored ≠ some "true" ∧
    DAGUtils.isValidDAG [unanchParent, anchParentDup, anchChild] = true := by
  refine ⟨rfl, rfl, by decide, by decide, by decide⟩

/-- Membership in the approver-occurrence list. -/
theorem mem_approversOf (vs : List DagVertex) (h : String) (a : DagVertex) :
    a ∈ DAGUtils.approversOf vs h ↔
      a ∈ vs ∧ (a.tipReference1 = h ∨ a.tipReference2 = h) := by
  induction vs with
  | nil => simp [DAGUtils.approversOf]
  | cons v t ih =>
      simp only [DAGUtils.approversOf, List.mem_append, List.mem_cons, ih]
      constructor
      · rintro ((h1 | h2) | ⟨hat, hr⟩)
        · split_ifs at h1 with hc
          · simp only [List.mem_singleton] at h1
            subst h1
            exact ⟨Or.inl rfl, Or.inl (beq_iff_eq.1 hc)⟩
          · simp at h1
        · split_ifs at h2 with hc
          · simp only [List.mem_singleton] at h2
            subst h2
            exact ⟨Or.inl rfl, Or.inr (beq_iff_eq.1 hc)⟩
          · simp at h2
        · exact ⟨Or.inr hat, hr⟩
      · rintro ⟨hv | hat, hr⟩
        · subst hv
          rcases hr with h1 | h2
          · exact Or.inl (Or.inl (by simp [h1]))
          · exact Or.inl (Or.inr (by simp [h2]))
        · exact Or.inr ⟨hat, hr⟩

/-- Lookup after a prepend. -/
theorem wGet_cons (k2 k : String) (w : Int) (m : List (String × Int)) :
    DAGUtils.wGet ((k, w) :: m) k2 =
      if k2 = k then some w else DAGUtils.wGet m k2 := by
  by_cases hk : k2 = k
  · subst hk
    rw [if_pos rfl]
    unfold DAGUtils.wGet
    rw [List.find?_cons_of_pos _ (by simp)]
    rfl
  · rw [if_neg hk]
    unfold DAGUtils.wGet
    rw [List.find?_cons_of_neg _ (by simp [Ne.symm hk])]

/-- Lookup after one weight-loop iteration: the processed vertex gets its
computed value, all other keys are untouched. -/
theorem wGet_recalcStep_ne (vs : List DagVertex) (m : List (String × Int))
    (x : DagVertex) (k : String) (hk : k ≠ x.vertexHash) :
    DAGUtils.wGet (DAGUtils.recalcStep vs m x) k = DAGUtils.wGet m k := by
  unfold DAGUtils.recalcStep
  split
  · rw [wGet_cons, if_neg hk]
  · rw [wGet_cons, if_neg hk]

/-- Lookup of the processed vertex after one weight-loop iteration. -/
theorem wGet_recalcStep_eq (vs : List DagVertex) (m : List (String × Int))
    (x : DagVertex) :
    DAGUtils.wGet (DAGUtils.recalcStep vs m x) x.vertexHash =
      some (if (DAGUtils.approversOf vs x.vertexHash).isEmpty then 1
        else 1 + ((DAGUtils.approversOf vs x.vertexHash).map
          (fun a => DAGUtils.jsOrOne (DAGUtils.wGet m a.vertexHash))).sum) := by
  unfold DAGUtils.recalcStep
  split
  next hc =>
    rw [wGet_cons, if_pos rfl]
  next hc =>
    rw [wGet_cons, if_pos rfl]

/-- Keys untouched by the remaining iterations keep their value. -/
theorem wGet_fold_stable (vs : List DagVertex) (rest : List DagVertex)
    (m : List (String × Int)) (k : String)
    (hk : ∀ u ∈ rest, u.vertexHash ≠ k) :
    DAGUtils.wGet (rest.foldl (DAGUtils.recalcStep vs) m) k =
      DAGUtils.wGet m k := by
  induction rest generalizing m with
  | nil => rfl
  | cons x rest2 ih =>
      rw [List.foldl_cons, ih _ (fun u hu => hk u (List.mem_cons_of_mem x hu)),
        wGet_recalcStep_ne vs m x k (fun hEq => hk x (List.mem_cons_self x rest2) hEq.symm)]

/-- Defaulted weights drawn from a positive map are at least 1. -/
theorem jsOrOne_ge_one (m : List (String × Int)) (k : String)
    (hpos : ∀ k2 w, DAGUtils.wGet m k2 = some w → 1 ≤ w) :
    1 ≤ DAGUtils.jsOrOne (DAGUtils.wGet m k) := by
  cases hw : DAGUtils.wGet m k with
  | none => exact le_refl 1
  | some w =>
      have h1 := hpos k w hw
      simp only [DAGUtils.jsOrOne]
      rw [if_neg (by simp; omega)]
      exact h1

/-- A sum of defaulted weights drawn from a positive map is nonnegative. -/
theorem sum_jsOrOne_nonneg (m : List (String × Int)) (l : List DagVertex)
    (hpos : ∀ k2 w, DAGUtils.wGet m k2 = some w → 1 ≤ w) :
    0 ≤ (l.map (fun a => DAGUtils.jsOrOne (DAGUtils.wGet m a.vertexHash))).sum := by
  induction l with
  | nil => simp
  | cons a t ih =>
      rw [List.map_cons, List.sum_cons]
      have := jsOrOne_ge_one m a.vertexHash hpos
      omega

/-- Invariant of the weight fold: after the processed prefix `done`, the map
holds exactly the prefix keys with values at least 1, and - because every
approver occurrence of a processed vertex is strictly deeper and therefore
already processed - the weight equation holds for every processed vertex and
is preserved by the remaining iterations. -/
theorem recalc_fold_invariant (vs : List DagVertex)
    (hnd : ((List.insertionSort DAGUtils.depthGE vs).map (fun v => v.vertexHash)).Nodup)
    (hsorted : (List.insertionSort DAGUtils.depthGE vs).Pairwise DAGUtils.depthGE)
    (hperm : ∀ a : DagVertex, a ∈ List.insertionSort DAGUtils.depthGE vs ↔ a ∈ vs)
    (hdepth : ∀ a ∈ vs, ∀ b ∈ vs,
      (a.tipReference1 = b.vertexHash ∨ a.tipReference2 = b.vertexHash) →
      b.depth < a.depth) :
    ∀ (rest done : List DagVertex) (m : List (String × Int)),
      List.insertionSort DAGUtils.depthGE vs = done ++ rest →
      (∀ k, (DAGUtils.wGet m k).isSome = true ↔
        k ∈ done.map (fun v => v.vertexHash)) →
      (∀ k w, DAGUtils.wGet m k = some w → 1 ≤ w) →
      (∀ v ∈ done, DAGUtils.wGet m v.vertexHash =
        some (1 + ((DAGUtils.approversOf vs v.vertexHash).map
          (fun a => DAGUtils.jsOrOne (DAGUtils.wGet m a.vertexHash))).sum)) →
      (∀ k, (DAGUtils.wGet (rest.foldl (DAGUtils.recalcStep vs) m) k).isSome = true ↔
        k ∈ (done ++ rest).map (fun v => v.vertexHash)) ∧
      (∀ k w, DAGUtils.wGet (rest.foldl (DAGUtils.recalcStep vs) m) k = some w →
        1 ≤ w) ∧
      (∀ v ∈ done ++ rest,
        DAGUtils.wGet (rest.foldl (DAGUtils.recalcStep vs) m) v.vertexHash =
          some (1 + ((DAGUtils.approversOf vs v.vertexHash).map
            (fun a => DAGUtils.jsOrOne
              (DAGUtils.wGet (rest.foldl (DAGUtils.recalcStep vs) m)
                a.vertexHash))).sum)) := by
  intro rest
  induction rest with
  | nil =>
      intro done m hS hdom hpos heq
      refine ⟨?_, hpos, ?_⟩
      · simpa using hdom
      · simpa using heq
  | cons x rest2 ih =>
      intro done m hS hdom hpos heq
      have hndS : ((done ++ x :: rest2).map (fun v => v.vertexHash)).Nodup :=
        hS ▸ hnd
      have hxnotdone : x.vertexHash ∉ done.map (fun v => v.vertexHash) := by
        rw [List.map_append] at hndS
        have hdisj := (List.nodup_append.1 hndS).2.2
        intro hmem
        exact hdisj hmem (by simp)
      have hsortedS : (done ++ x :: rest2).Pairwise DAGUtils.depthGE :=
        hS ▸ hsorted
      have hcross : ∀ d ∈ done, ∀ r ∈ x :: rest2, r.depth ≤ d.depth := by
        intro d hd r hr
        exact (List.pairwise_append.1 hsortedS).2.2 d hd r hr
      have hxrest : ∀ r ∈ rest2, r.depth ≤ x.depth := by
        intro r hr
        exact (List.pairwise_cons.1 (List.pairwise_append.1 hsortedS).2.1).1 r hr
      have happin : ∀ v, v ∈ done ++ [x] →
          ∀ a ∈ DAGUtils.approversOf vs v.vertexHash, a ∈ done := by
        intro v hv a ha
        obtain ⟨havs, href⟩ := (mem_approversOf vs v.vertexHash a).1 ha
        have hvS : v ∈ List.insertionSort DAGUtils.depthGE vs := by
          rw [hS]
          rcases List.mem_append.1 hv with h1 | h2
          · exact List.mem_append.2 (Or.inl h1)
          · simp only [List.mem_singleton] at h2
            subst h2
            exact List.mem_append.2 (Or.inr (by simp))
        have hvvs : v ∈ vs := (hperm v).1 hvS
        have hvd : v.depth < a.depth := hdepth a havs v hvvs href
        have haS : a ∈ done ++ x :: rest2 := by
          rw [← hS]
          exact (hperm a).2 havs
        rcases List.mem_append.1 haS with h1 | h2
        · exact h1
        · exfalso
          rcases List.mem_append.1 hv with hv1 | hv2
          · exact absurd hvd (not_lt.2 (hcross v hv1 a h2))
          · simp only [List.mem_singleton] at hv2
            subst hv2
            rcases List.mem_cons.1 h2 with rfl | h3
            · exact lt_irrefl _ hvd
            · exact absurd hvd (not_lt.2 (hxrest a h3))
      have hS2 : List.insertionSort DAGUtils.depthGE vs = (done ++ [x]) ++ rest2 := by
        rw [hS, List.append_assoc, List.singleton_append]
      have hdom2 : ∀ k, (DAGUtils.wGet (DAGUtils.recalcStep vs m x) k).isSome = true ↔
          k ∈ (done ++ [x]).map (fun v => v.vertexHash) := by
        intro k
        by_cases hk : k = x.vertexHash
        · subst hk
          rw [wGet_recalcStep_eq]
          simp
        · rw [wGet_recalcStep_ne vs m x k hk, List.map_append]
          rw [hdom k]
          simp [hk]
      have hpos2 : ∀ k w, DAGUtils.wGet (DAGUtils.recalcStep vs m x) k = some w →
          1 ≤ w := by
        intro k w hw
        by_cases hk : k = x.vertexHash
        · subst hk
          rw [wGet_recalcStep_eq] at hw
          have hvals := sum_jsOrOne_nonneg m (DAGUtils.approversOf vs x.vertexHash) hpos
          split_ifs at hw with hc
          · rw [Option.some_inj] at hw
            omega
          · rw [Option.some_inj] at hw
            omega
        · exact hpos k w (by rw [wGet_recalcStep_ne vs m x k hk] at hw; exact hw)
      have hstable : ∀ a : DagVertex, a ∈ done →
          DAGUtils.wGet (DAGUtils.recalcStep vs m x) a.vertexHash =
            DAGUtils.wGet m a.vertexHash := by
        intro a ha
        refine wGet_recalcStep_ne vs m x a.vertexHash ?_
        intro hEq
        exact hxnotdone (hEq ▸ List.mem_map_of_mem (fun v => v.vertexHash) ha)
      have heq2 : ∀ v ∈ done ++ [x],
          DAGUtils.wGet (DAGUtils.recalcStep vs m x) v.vertexHash =
            some (1 + ((DAGUtils.approversOf vs v.vertexHash).map
              (fun a => DAGUtils.jsOrOne
                (DAGUtils.wGet (DAGUtils.recalcStep vs m x) a.vertexHash))).sum) := by
        intro v hv
        have hmapeq : (DAGUtils.approversOf vs v.vertexHash).map
            (fun a => DAGUtils.jsOrOne
              (DAGUtils.wGet (DAGUtils.recalcStep vs m x) a.vertexHash)) =
            (DAGUtils.approversOf vs v.vertexHash).map
              (fun a => DAGUtils.jsOrOne (DAGUtils.wGet m a.vertexHash)) := by
          refine List.map_congr_left ?_
          intro a ha
          rw [hstable a (happin v hv a ha)]
        rcases List.mem_append.1 hv with hv1 | hv2
        · have hvne : v.vertexHash ≠ x.vertexHash := by
            intro hEq
            exact hxnotdone (hEq ▸ List.mem_map_of_mem (fun v => v.vertexHash) hv1)
          rw [wGet_recalcStep_ne vs m x v.vertexHash hvne, hmapeq]
          exact heq v hv1
        · simp only [List.mem_singleton] at hv2
          subst hv2
          rw [wGet_recalcStep_eq, hmapeq]
          split_ifs with hc
          · rw [List.isEmpty_iff] at hc
            rw [hc]
            simp
          · rfl
      have hres := ih (done ++ [x]) (DAGUtils.recalcStep vs m x) hS2 hdom2 hpos2 heq2
      rw [List.foldl_cons]
      have hlists : (done ++ [x]) ++ rest2 = done ++ x :: rest2 := by
        rw [List.append_assoc, List.singleton_append]
      refine ⟨?_, hres.2.1, ?_⟩
      · intro k
        rw [hres.1 k, hlists]
      · intro v hv
        exact hres.2.2 v (by rw [hlists]; exact hv)

/-- C4 (amended): for a vertex list with pairwise-distinct hashes in which
every vertex referencing `v` is strictly deeper than `v`,
`recalculateAllWeights` assigns every vertex 1 plus the sum of the assigned
weights of its approver occurrences - a vertex that references `v` with both
tip references contributes its weight twice - and exactly 1 when nothing
references it. -/
theorem recalculateAllWeights_correct (vs : List DagVertex)
    (hnd : (vs.map (fun v => v.vertexHash)).Nodup)
    (hdepth : ∀ a ∈ vs, ∀ b ∈ vs,
      (a.tipReference1 = b.vertexHash ∨ a.tipReference2 = b.vertexHash) →
      b.depth < a.depth) :
    ∀ v ∈ vs,
      DAGUtils.wGet (DAGUtils.recalculateAllWeights vs) v.vertexHash =
        some (1 + ((DAGUtils.approversOf vs v.vertexHash).map
          (fun a => (DAGUtils.wGet (DAGUtils.recalculateAllWeights vs)
            a.vertexHash).getD 0)).sum) ∧
      (DAGUtils.approversOf vs v.vertexHash = [] →
        DAGUtils.wGet (DAGUtils.recalculateAllWeights vs) v.vertexHash = some 1) := by
  have hperm : ∀ a : DagVertex,
      a ∈ List.insertionSort DAGUtils.depthGE vs ↔ a ∈ vs :=
    fun a => (List.perm_insertionSort DAGUtils.depthGE vs).mem_iff
  have hndS : ((List.insertionSort DAGUtils.depthGE vs).map
      (fun v => v.vertexHash)).Nodup :=
    ((List.perm_insertionSort DAGUtils.depthGE vs).map
      (fun v => v.vertexHash)).nodup_iff.2 hnd
  have hsorted : (List.insertionSort DAGUtils.depthGE vs).Pairwise DAGUtils.depthGE :=
    List.sorted_insertionSort DAGUtils.depthGE vs
  have hres := recalc_fold_invariant vs hndS hsorted hperm hdepth
    (List.insertionSort DAGUtils.depthGE vs) [] []
    (by simp) (by intro k; simp [DAGUtils.wGet])
    (by intro k w h; simp [DAGUtils.wGet] at h)
    (by intro v hv; exact absurd hv (by simp))
  obtain ⟨hdom, hpos, heq⟩ := hres
  have hrw : DAGUtils.recalculateAllWeights vs =
      (List.insertionSort DAGUtils.depthGE vs).foldl (DAGUtils.recalcStep vs) [] := rfl
  intro v hv
  have hvS : v ∈ List.insertionSort DAGUtils.depthGE vs := (hperm v).2 hv
  have hEqv := heq v (by simpa using hvS)
  have hconv : ∀ a ∈ DAGUtils.approversOf vs v.vertexHash,
      (DAGUtils.wGet ((List.insertionSort DAGUtils.depthGE vs).foldl
        (DAGUtils.recalcStep vs) []) a.vertexHash).getD 0 =
      DAGUtils.jsOrOne (DAGUtils.wGet ((List.insertionSort DAGUtils.depthGE vs).foldl
        (DAGUtils.recalcStep vs) []) a.vertexHash) := by
    intro a ha
    have havs : a ∈ vs := ((mem_approversOf vs v.vertexHash a).1 ha).1
    have haS : a ∈ List.insertionSort DAGUtils.depthGE vs := (hperm a).2 havs
    have hsome := (hdom a.vertexHash).2
      (by simpa using List.mem_map_of_mem (fun v => v.vertexHash) haS)
    cases hw : DAGUtils.wGet ((List.insertionSort DAGUtils.depthGE vs).foldl
        (DAGUtils.recalcStep vs) []) a.vertexHash with
    | none => rw [hw] at hsome; exact absurd hsome (by simp)
    | some w =>
        have h1 := hpos a.vertexHash w hw
        simp only [Option.getD_some, DAGUtils.jsOrOne]
        rw [if_neg (by simp; omega)]
  refine ⟨?_, ?_⟩
  · rw [hrw, List.map_congr_left hconv]
    exact hEqv
  · intro hempty
    rw [hrw]
    have := hEqv
    rw [hempty] at this
    simpa using this

/-- C4 witness: on the double-reference pair, the amended equation holds for
the parent: its assigned weight is 1 plus twice the weight of the child. -/
theorem recalculateAllWeights_correct_witness :
    DAGUtils.wGet (DAGUtils.recalculateAllWeights [parentP, childC])
        parentP.vertexHash =
      some (1 + ((DAGUtils.approversOf [parentP, childC] parentP.vertexHash).map
        (fun a => (DAGUtils.wGet (DAGUtils.recalculateAllWeights [parentP, childC])
          a.vertexHash).getD 0)).sum) :=
  (recalculateAllWeights_correct [parentP, childC] (by decide) (by decide)
    parentP (by decide)).1

/-- C4 counterexample: the two-vertex list `[parentP, childC]` is acyclic and
satisfies the depth invariant, yet the weight assigned to the parent is not 1
plus the sum of the assigned weights of its direct approvers taken as a set
of vertices: the child references the parent with both tips, the set of
approvers is `[childC]` with assigned weight 1, the claim demands 2, and the
code assigns 3. -/
theorem recalculateAllWeights_set_reading_fails :
    (([parentP, childC].map (fun v => v.vertexHash)).Nodup ∧
      DAGUtils.hasCycles [parentP, childC] = false ∧
      (∀ a ∈ [parentP, childC], ∀ b ∈ [parentP, childC],
        b.vertexHash ≠ GENESIS_HASH →
        (a.tipReference1 = b.vertexHash ∨ a.tipReference2 = b.vertexHash) →
        b.depth < a.depth)) ∧
    [parentP, childC].filter (fun a =>
      a.tipReference1 == parentP.vertexHash ||
        a.tipReference2 == parentP.vertexHash) = [childC] ∧
    DAGUtils.wGet (DAGUtils.recalculateAllWeights [parentP, childC])
        parentP.vertexHash = some 3 ∧
    DAGUtils.wGet (DAGUtils.recalculateAllWeights [parentP, childC])
        parentP.vertexHash ≠
      some (1 + (([parentP, childC].filter (fun a =>
        a.tipReference1 == parentP.vertexHash ||
          a.tipReference2 == parentP.vertexHash)).map
        (fun a => (DAGUtils.wGet (DAGUtils.recalculateAllWeights [parentP, childC])
          a.vertexHash).getD 0)).sum) := by
  refine ⟨⟨by decide, by decide, by decide⟩, by decide, by decide, by decide⟩
